import Mathlib

/-
Shallow embedding of the Job-Application-Co-pilot frontend (src/App.tsx,
src/pages/JobListingsPage.tsx, src/services/geminiService.ts,
src/services/apiService.ts, src/data/defaultData.ts) in Lean 4.

Text is modelled as `List Char` (JS strings; we only rely on code-unit
equality, so the Char vs UTF-16 distinction is immaterial for the claims).
Timestamps (ISO strings produced by `new Date().toISOString()` and consumed
only through `new Date(s).getTime()`) are modelled by their epoch-millisecond
time value, an `Int`.  External effects (fetch, uuid, Date.now) are passed in
as explicit parameters describing their outcome.
-/

namespace JobCopilot

/-- Strings are lists of characters. -/
abbrev Str := List Char

/-- Coerce a Lean string literal into the `Str` model. -/
def str (s : String) : Str := s.data

/-- The dollar character, special in the replacement argument of
`String.prototype.replace`. -/
def dollarChar : Char := Char.ofNat 36

/-- The ampersand character. -/
def ampChar : Char := Char.ofNat 38

/-- The backtick character (ECMA replacement pattern for the text before the
match). -/
def backtickChar : Char := Char.ofNat 96

/-- The apostrophe character (ECMA replacement pattern for the text after the
match). -/
def aposChar : Char := Char.ofNat 39

/-- Characters removed by `String.prototype.trim` (ECMA WhiteSpace and
LineTerminator code points). -/
def isJsWhitespace (c : Char) : Bool :=
  c.toNat = 9 ∨ c.toNat = 10 ∨ c.toNat = 11 ∨ c.toNat = 12 ∨ c.toNat = 13 ∨
  c.toNat = 32 ∨ c.toNat = 160 ∨ c.toNat = 5760 ∨
  (8192 ≤ c.toNat ∧ c.toNat ≤ 8202) ∨ c.toNat = 8232 ∨ c.toNat = 8233 ∨
  c.toNat = 8239 ∨ c.toNat = 8287 ∨ c.toNat = 12288 ∨ c.toNat = 65279

/-- Model of `String.prototype.trim`: strip leading and trailing JS
whitespace. -/
def jsTrim (s : Str) : Str :=
  ((s.dropWhile isJsWhitespace).reverse.dropWhile isJsWhitespace).reverse

/-- Model of `String.prototype.toLowerCase` (ASCII-faithful; the sort
comparator in JobListingsPage.tsx only uses it for ordering). -/
def jsToLower (s : Str) : Str := s.map Char.toLower

/-- Index of the first occurrence of `pat` in `s`, as used by the string
search step of `String.prototype.replace` (ECMA StringIndexOf). -/
def firstIndexOf (pat : Str) : Str → Option Nat
  | [] => if pat.isPrefixOf [] then some 0 else none
  | c :: t =>
    if pat.isPrefixOf (c :: t) then some 0
    else (firstIndexOf pat t).map (· + 1)

/-- ECMA GetSubstitution for a string (captureless) search: expand `$$`,
`$&`, dollar-backtick and dollar-apostrophe in the replacement text;
every other character (including `$` followed by anything else) is copied
literally. `matched` is the matched text, `before`/`after` the text around
the match. -/
def getSubstitution (matched before after : Str) : Str → Str
  | [] => []
  | [c] => [c]
  | c1 :: c2 :: rest =>
    if c1 = dollarChar then
      if c2 = dollarChar then dollarChar :: getSubstitution matched before after rest
      else if c2 = ampChar then matched ++ getSubstitution matched before after rest
      else if c2 = backtickChar then before ++ getSubstitution matched before after rest
      else if c2 = aposChar then after ++ getSubstitution matched before after rest
      else c1 :: getSubstitution matched before after (c2 :: rest)
    else c1 :: getSubstitution matched before after (c2 :: rest)

/-- Model of `String.prototype.replace(pat, repl)` with a string pattern:
replace the first occurrence of `pat`, expanding replacement patterns in
`repl`; if `pat` does not occur, return the receiver unchanged. -/
def jsReplace (s pat repl : Str) : Str :=
  match firstIndexOf pat s with
  | none => s
  | some i =>
      s.take i ++ getSubstitution pat (s.take i) (s.drop (i + pat.length)) repl
        ++ s.drop (i + pat.length)

/-- JSON values as produced by `JSON.parse`.  Numbers keep their source
token: the code under verification never inspects a parsed number, so only
parse success matters. -/
inductive Json where
  | null
  | bool (b : Bool)
  | num (tok : Str)
  | strv (s : Str)
  | arr (elems : List Json)
  | obj (fields : List (Str × Json))

/-- JSON insignificant whitespace (space, tab, line feed, carriage
return). -/
def isJsonWs (c : Char) : Bool :=
  c.toNat = 32 ∨ c.toNat = 9 ∨ c.toNat = 10 ∨ c.toNat = 13

/-- Drop leading JSON whitespace. -/
def skipJsonWs (s : Str) : Str := s.dropWhile isJsonWs

/-- Decimal digit test. -/
def isDigitChar (c : Char) : Bool := 48 ≤ c.toNat ∧ c.toNat ≤ 57

/-- Hexadecimal digit test. -/
def isHexChar (c : Char) : Bool :=
  isDigitChar c ∨ (97 ≤ c.toNat ∧ c.toNat ≤ 102) ∨ (65 ≤ c.toNat ∧ c.toNat ≤ 70)

/-- Value of a hexadecimal digit. -/
def hexVal (c : Char) : Nat :=
  if isDigitChar c then c.toNat - 48
  else if 97 ≤ c.toNat then c.toNat - 87
  else c.toNat - 55

/-- The double-quote character. -/
def dquoteChar : Char := Char.ofNat 34

/-- The backslash character. -/
def backslashChar : Char := Char.ofNat 92

/-- The opening-brace character. -/
def lbraceChar : Char := Char.ofNat 123

/-- The closing-brace character. -/
def rbraceChar : Char := Char.ofNat 125

/-- The opening-bracket character. -/
def lbrackChar : Char := Char.ofNat 91

/-- The closing-bracket character. -/
def rbrackChar : Char := Char.ofNat 93

/-- The comma character. -/
def commaChar : Char := Char.ofNat 44

/-- The colon character. -/
def colonChar : Char := Char.ofNat 58

/-- The minus character. -/
def minusChar : Char := Char.ofNat 45

/-- The plus character. -/
def plusChar : Char := Char.ofNat 43

/-- The full-stop character. -/
def dotChar : Char := Char.ofNat 46

/-- The zero digit character. -/
def zeroChar : Char := Char.ofNat 48

/-- Parse the body of a JSON string literal (the opening quote already
consumed); returns the unescaped content and the remaining input.  Fuel is
the input length plus one, always sufficient since every step consumes at
least one character. -/
def parseJsonStringBody : Nat → Str → Option (Str × Str)
  | 0, _ => none
  | _ + 1, [] => none
  | fuel + 1, c :: rest =>
    if c = dquoteChar then some ([], rest)
    else if c = backslashChar then
      match rest with
      | [] => none
      | e :: rest2 =>
        if e = dquoteChar then
          (parseJsonStringBody fuel rest2).map (fun p => (dquoteChar :: p.1, p.2))
        else if e = backslashChar then
          (parseJsonStringBody fuel rest2).map (fun p => (backslashChar :: p.1, p.2))
        else if e = Char.ofNat 47 then
          (parseJsonStringBody fuel rest2).map (fun p => (Char.ofNat 47 :: p.1, p.2))
        else if e = 'b' then
          (parseJsonStringBody fuel rest2).map (fun p => (Char.ofNat 8 :: p.1, p.2))
        else if e = 'f' then
          (parseJsonStringBody fuel rest2).map (fun p => (Char.ofNat 12 :: p.1, p.2))
        else if e = 'n' then
          (parseJsonStringBody fuel rest2).map (fun p => (Char.ofNat 10 :: p.1, p.2))
        else if e = 'r' then
          (parseJsonStringBody fuel rest2).map (fun p => (Char.ofNat 13 :: p.1, p.2))
        else if e = 't' then
          (parseJsonStringBody fuel rest2).map (fun p => (Char.ofNat 9 :: p.1, p.2))
        else if e = 'u' then
          match rest2 with
          | h1 :: h2 :: h3 :: h4 :: rest3 =>
            if isHexChar h1 ∧ isHexChar h2 ∧ isHexChar h3 ∧ isHexChar h4 then
              (parseJsonStringBody fuel rest3).map (fun p =>
                (Char.ofNat (((hexVal h1 * 16 + hexVal h2) * 16 + hexVal h3) * 16 + hexVal h4) :: p.1, p.2))
            else none
          | _ => none
        else none
    else if c.toNat < 32 then none
    else (parseJsonStringBody fuel rest).map (fun p => (c :: p.1, p.2))

/-- Parse an optional JSON fraction part, returning its token and the
remaining input. -/
def parseFracPart (s : Str) : Option (Str × Str) :=
  match s with
  | c :: t =>
    if c = dotChar then
      match t.takeWhile isDigitChar with
      | [] => none
      | ds => some (c :: ds, t.dropWhile isDigitChar)
    else some ([], s)
  | [] => some ([], s)

/-- Parse an optional JSON exponent part, returning its token and the
remaining input. -/
def parseExpPart (s : Str) : Option (Str × Str) :=
  match s with
  | c :: t =>
    if c = 'e' ∨ c = 'E' then
      let sgn : Str × Str :=
        match t with
        | d :: u => if d = plusChar ∨ d = minusChar then ([d], u) else ([], t)
        | [] => ([], t)
      match sgn.2.takeWhile isDigitChar with
      | [] => none
      | ds => some (c :: (sgn.1 ++ ds), sgn.2.dropWhile isDigitChar)
    else some ([], s)
  | [] => some ([], s)

/-- Parse a JSON number, returning its source token and the remaining
input. -/
def parseJsonNumber (s : Str) : Option (Str × Str) :=
  let negPair : Str × Str :=
    match s with
    | c :: t => if c = minusChar then ([c], t) else ([], s)
    | [] => ([], s)
  match negPair.2 with
  | [] => none
  | c :: t =>
    if ¬ isDigitChar c then none
    else
      let intPart : Str × Str :=
        if c = zeroChar then ([c], t)
        else (c :: t.takeWhile isDigitChar, t.dropWhile isDigitChar)
      match parseFracPart intPart.2 with
      | none => none
      | some (frac, s2) =>
        match parseExpPart s2 with
        | none => none
        | some (ex, s3) => some (negPair.1 ++ intPart.1 ++ frac ++ ex, s3)

mutual

/-- Parse one JSON value; fuel-driven model of the recursive descent of
`JSON.parse` (two fuel units per input character always suffice, since
every two nested calls consume at least one character). -/
def parseJsonVal : Nat → Str → Option (Json × Str)
  | 0, _ => none
  | fuel + 1, s =>
    match skipJsonWs s with
    | [] => none
    | c :: t =>
      if c = lbraceChar then
        match skipJsonWs t with
        | d :: u =>
          if d = rbraceChar then some (.obj [], u)
          else
            match parseJsonMembers fuel (d :: u) with
            | some (fields, rest) =>
              match skipJsonWs rest with
              | e :: v => if e = rbraceChar then some (.obj fields, v) else none
              | [] => none
            | none => none
        | [] => none
      else if c = lbrackChar then
        match skipJsonWs t with
        | d :: u =>
          if d = rbrackChar then some (.arr [], u)
          else
            match parseJsonElems fuel (d :: u) with
            | some (elems, rest) =>
              match skipJsonWs rest with
              | e :: v => if e = rbrackChar then some (.arr elems, v) else none
              | [] => none
            | none => none
        | [] => none
      else if c = dquoteChar then
        (parseJsonStringBody (t.length + 1) t).map (fun p => (.strv p.1, p.2))
      else if (str "true").isPrefixOf (c :: t) then some (.bool true, (c :: t).drop 4)
      else if (str "false").isPrefixOf (c :: t) then some (.bool false, (c :: t).drop 5)
      else if (str "null").isPrefixOf (c :: t) then some (.null, (c :: t).drop 4)
      else (parseJsonNumber (c :: t)).map (fun p => (.num p.1, p.2))

/-- Parse a nonempty comma-separated JSON array element list. -/
def parseJsonElems : Nat → Str → Option (List Json × Str)
  | 0, _ => none
  | fuel + 1, s =>
    match parseJsonVal fuel s with
    | none => none
    | some (v, rest) =>
      match skipJsonWs rest with
      | c :: t =>
        if c = commaChar then
          match parseJsonElems fuel t with
          | some (vs, rest2) => some (v :: vs, rest2)
          | none => none
        else some ([v], rest)
      | [] => some ([v], rest)

/-- Parse a nonempty comma-separated JSON object member list. -/
def parseJsonMembers : Nat → Str → Option (List (Str × Json) × Str)
  | 0, _ => none
  | fuel + 1, s =>
    match skipJsonWs s with
    | c :: t =>
      if c = dquoteChar then
        match parseJsonStringBody (t.length + 1) t with
        | some (key, rest) =>
          match skipJsonWs rest with
          | d :: u =>
            if d = colonChar then
              match parseJsonVal fuel u with
              | some (v, rest2) =>
                match skipJsonWs rest2 with
                | e :: w =>
                  if e = commaChar then
                    match parseJsonMembers fuel w with
                    | some (fs, rest3) => some ((key, v) :: fs, rest3)
                    | none => none
                  else some ([(key, v)], rest2)
                | [] => some ([(key, v)], rest2)
              | none => none
            else none
          | [] => none
        | none => none
      else none
    | [] => none

end

/-- Model of `JSON.parse`: parse one value, allow trailing whitespace only,
fail otherwise. -/
def jsonParse (s : Str) : Option Json :=
  match parseJsonVal (2 * s.length + 4) s with
  | some (v, rest) => if skipJsonWs rest = [] then some v else none
  | none => none

/-- Keyword value pair (src/types.ts). -/
structure Keyword where
  keyword : Str
  definition : Str
deriving DecidableEq

/-- Improvement suggestion value (src/types.ts). -/
structure ImprovementSuggestion where
  originalText : Str
  suggestedRewrite : Str
  suggestionType : Str
deriving DecidableEq

/-- Analysis result (src/types.ts); `matchScore` is a JS number used as an
integer score. -/
structure JobAnalysis where
  matchScore : Int
  summary : Str
  strengths : List Str
  gaps : List Str
  matchedKeywords : List Keyword
  missingKeywords : List Keyword
  improvementSuggestions : List ImprovementSuggestion
  coverLetterDraft : Str
deriving DecidableEq

/-- Tracked job posting (src/types.ts).  `analyzedAt` is an ISO timestamp in
the source, observed only through `new Date(s).getTime()`, so it is modelled
by its epoch-millisecond time value. -/
structure Job where
  id : Str
  url : Str
  title : Str
  company : Str
  description : Str
  isFetching : Bool
  isLoading : Bool
  error : Option Str
  analysis : Option JobAnalysis
  analyzedAt : Option Int := none
deriving DecidableEq

/-- Saved résumé record (src/types.ts); `savedAt` modelled like
`analyzedAt`. -/
structure SavedResume where
  _id : Str
  name : Str
  content : Str
  jobDescription : Str
  savedAt : Int
deriving DecidableEq

/-- Outcome of a settled `fetch` promise as far as the clients observe it:
success flag, status text and body text. -/
structure FetchResponse where
  ok : Bool
  statusText : Str
  body : Str
deriving DecidableEq

/-- Model of `handleResponse` in geminiService.ts: an empty body yields the
empty object, an unparseable body yields the raw text (the catch branch),
otherwise the parsed JSON value. -/
def handleResponse (body : Str) : Json :=
  if body = [] then Json.obj []
  else
    match jsonParse body with
    | some v => v
    | none => Json.strv body

/-- Model of `analyzeJobFit` in geminiService.ts as a function of the
response that fetch delivered for POST /api/analyze (the résumé and job
description texts only feed the request body).  A non-ok response throws the
user-facing message; otherwise the value of `handleResponse` is returned,
cast unvalidated to JobAnalysis by the source. -/
def analyzeJobFit (resp : FetchResponse) : Except Str Json :=
  if resp.ok then .ok (handleResponse resp.body)
  else
    .error (str "Failed to analyze job fit: " ++
      (if resp.body = [] then resp.statusText else resp.body))

/-- Property lookup on a parsed JSON value (last duplicate key wins, as in
JS). -/
def jsonField (v : Json) (key : Str) : Option Json :=
  match v with
  | .obj fields => (fields.reverse.find? (fun f => decide (f.1 = key))).map (·.2)
  | _ => none

/-- Model of `fetchJobDescriptionFromUrl` in geminiService.ts as a function
of the fetch response: a non-ok response throws the guidance message;
otherwise `(data.text || '').trim()` is returned.  An unparseable body makes
`resp.json()` reject, modelled as an engine-message rejection; a non-string
truthy `text` property (which would make `.trim()` throw) is modelled as the
empty result, a case no claim exercises. -/
def fetchJobDescriptionFromUrl (resp : FetchResponse) : Except Str Str :=
  if resp.ok then
    match jsonParse resp.body with
    | none => .error (str "Unexpected token in JSON")
    | some v =>
      match jsonField v (str "text") with
      | some (.strv s) => .ok (jsTrim s)
      | _ => .ok []
  else
    .error (str "Failed to fetch job description: " ++
      (if resp.body = [] then resp.statusText else resp.body))

/-- The template résumé shipped in src/data/defaultData.ts. -/
def templateResumeContent : Str :=
  str (String.intercalate "\n" [
    "EDUCATION",
    "Bachelor of Arts in Management (Logistics and Operations)",
    "Southern New Hampshire University",
    "",
    "Bachelor of Science in Integrated Science",
    "University of Nebraska-Lincoln",
    "",
    "SKILLS",
    "IT Support and Troubleshooting",
    "Lead Qualification & Prospect Engagement",
    "Network Basics and Security Protocols",
    "Strong Communication",
    "Customer Relation Management Software (CRM)",
    "Problem-solving and Critical thinking",
    "Consultative & Technical Selling",
    "Bilingual Communication (English & Spanish)",
    "",
    "EXPERIENCE",
    "Bilingual Retail Specialist | Verizon",
    "March 2023 - Present",
    "- Engage inbound customers and manage high-volume interactions to deliver fast, accurate technical and product support.",
    "- Troubleshoot mobile and iPad issues while educating customers on cybersecurity and data-protection best practices.",
    "- Qualify customer needs, develop personalized proposals, and drive product adoption across multiple service lines.",
    "- Maintain up-to-date CRM records to ensure visibility and alignment with sales targets.",
    "",
    "Outside Sales Representative | Spectrum",
    "October 2023 - May 2024",
    "- Executed outbound prospecting through door-to-door outreach, identifying and qualifying new leads across assigned territories.",
    "- Conducted discovery conversations to uncover customer pain points and recommend tailored service solutions.",
    "- Created and presented compelling sales proposals that increased acquisition and customer satisfaction.",
    "- Collaborated with peers to refine messaging, analyze performance data, and scale successful engagement tactics.",
    "",
    "Digital Phenotyping | BASF",
    "June 2023 - October 2023",
    "- Managed secure data backup and storage for digital research programs, ensuring reliable access and integrity.",
    "- Organized and analyzed large data sets via a cloud-based platform to support operational decision-making.",
    "- Collaborated remotely with multiple teams to troubleshoot and improve workflow efficiency.",
    "- Applied a process-oriented mindset to streamline data operations and enhance productivity.",
    "",
    "CERTIFICATES",
    "Data Analytics Certificate, Gener8tor (July 2025)",
    "Google IT Support Certification, 2024",
    "Web Development from Chegg skills (HTML, CSS, JavaScript, Git, Github, Node.js, Jest) (2024)",
    "Certified ScrumMaster (CSM)"])

/-- The single localStorage slot `savedResumes_db_mock` of apiService.ts,
holding the serialized array of SavedResume records when set. -/
structure LocalStore where
  slot : Option (List SavedResume)
deriving DecidableEq

/-- Model of `seedInitialData` in apiService.ts: the record written on first
read of an unset slot; `freshId` models `uuidv4()` and `now` the current
time. -/
def seedRecord (freshId : Str) (now : Int) : SavedResume :=
  { _id := freshId, name := str "General Resume Template",
    content := templateResumeContent, jobDescription := [], savedAt := now }

/-- Model of `readLocalResumes`: an unset slot is seeded with the template
record and re-read; a set slot is returned as stored. -/
def readLocalResumes (store : LocalStore) (freshId : Str) (now : Int) :
    List SavedResume × LocalStore :=
  match store.slot with
  | none => ([seedRecord freshId now], ⟨some [seedRecord freshId now]⟩)
  | some l => (l, store)

/-- Comparator of `getResumes` (`new Date(b.savedAt).getTime() - new
Date(a.savedAt).getTime()`), as the boolean a-may-stay-before-b relation fed
to the stable sort. -/
def resumeDescLe (a b : SavedResume) : Bool := decide (b.savedAt - a.savedAt ≤ 0)

/-- Model of `getResumes`: `remote = some rs` models a successful remote
read (returned as-is); `remote = none` models any remote failure (rejection
or non-2xx status, both thrown by `tryFetchJson`), falling back to the local
cache sorted newest-first. -/
def getResumes (remote : Option (List SavedResume)) (store : LocalStore)
    (freshId : Str) (now : Int) : List SavedResume × LocalStore :=
  match remote with
  | some rs => (rs, store)
  | none =>
    let rd := readLocalResumes store freshId now
    (rd.1.mergeSort resumeDescLe, rd.2)

/-- Outcome of the un-checked `fetch` in `deleteResume`: the promise either
resolves (with any HTTP status; `ok` records whether it was a success
status, which the source never consults) or rejects (transport failure). -/
inductive RemoteOutcome where
  | resolved (ok : Bool)
  | rejected
deriving DecidableEq

/-- Model of `deleteResume`: a resolved fetch reports success and leaves the
cache alone; a rejected fetch falls back to the cache, throwing the
not-found message when no record matches and writing the filtered list
otherwise.  Result: final store and either the thrown message or the
success flag. -/
def deleteResume (remote : RemoteOutcome) (store : LocalStore) (id : Str)
    (freshId : Str) (now : Int) : LocalStore × Except Str Bool :=
  match remote with
  | .resolved _ => (store, .ok true)
  | .rejected =>
    let rd := readLocalResumes store freshId now
    let updated := rd.1.filter (fun r => decide (¬ r._id = id))
    if updated.length = rd.1.length then
      (rd.2, .error (str "Resume with ID " ++ id ++ str " not found"))
    else
      (⟨some updated⟩, .ok true)

/-- Partial job update (`Partial<Job>` in src/App.tsx): a field is patched
exactly when present.  Nullable fields carry the new nullable value; the
source never patches `analyzedAt` to undefined, so its patch is the bare
time value. -/
structure JobPatch where
  id : Option Str := none
  url : Option Str := none
  title : Option Str := none
  company : Option Str := none
  description : Option Str := none
  isFetching : Option Bool := none
  isLoading : Option Bool := none
  error : Option (Option Str) := none
  analysis : Option (Option JobAnalysis) := none
  analyzedAt : Option Int := none
deriving DecidableEq

/-- Model of the object spread `{ ...j, ...updates }`: patched fields
overwrite, everything else is kept. -/
def applyPatch (j : Job) (p : JobPatch) : Job :=
  { id := p.id.getD j.id,
    url := p.url.getD j.url,
    title := p.title.getD j.title,
    company := p.company.getD j.company,
    description := p.description.getD j.description,
    isFetching := p.isFetching.getD j.isFetching,
    isLoading := p.isLoading.getD j.isLoading,
    error := p.error.getD j.error,
    analysis := p.analysis.getD j.analysis,
    analyzedAt := match p.analyzedAt with
      | some t => some t
      | none => j.analyzedAt }

/-- Model of `handleUpdateJob` in src/App.tsx: merge the patch into every
job whose id matches (ids are unique in practice), keep the rest. -/
def handleUpdateJob (jobs : List Job) (id : Str) (p : JobPatch) : List Job :=
  jobs.map (fun j => if j.id = id then applyPatch j p else j)

/-- The App component state the claims are about: the working résumé text
and the job collection. -/
structure AppState where
  resume : Str
  jobs : List Job
deriving DecidableEq

/-- Model of `jobs.find(j => j.id === id)`. -/
def findJob (jobs : List Job) (id : Str) : Option Job :=
  jobs.find? (fun j => decide (j.id = id))

/-- The job literal created by `handleAddJob` for a fresh uuid. -/
def newJob (freshId : Str) : Job :=
  { id := freshId, url := [], title := str "New Job Listing",
    company := str "Company Name", description := [], isFetching := false,
    isLoading := false, error := none, analysis := none, analyzedAt := none }

/-- Model of `handleAddJob` in src/App.tsx: prepend the created job;
`freshId` models `uuidv4()`. -/
def handleAddJob (s : AppState) (freshId : Str) : AppState :=
  { s with jobs := newJob freshId :: s.jobs }

/-- Model of `handleRemoveJob` in src/App.tsx. -/
def handleRemoveJob (s : AppState) (id : Str) : AppState :=
  { s with jobs := s.jobs.filter (fun j => decide (¬ j.id = id)) }

/-- Model of `handleUpdateJob` at the app-state level. -/
def updateJobApp (s : AppState) (id : Str) (p : JobPatch) : AppState :=
  { s with jobs := handleUpdateJob s.jobs id p }

/-- Model of `handleApplySuggestion` in src/App.tsx: one `String.replace` on
the working résumé. -/
def applySuggestionApp (s : AppState) (sug : ImprovementSuggestion) : AppState :=
  { s with resume := jsReplace s.resume sug.originalText sug.suggestedRewrite }

/-- The guard of `handleAnalyzeJob`: a matching job must exist and both the
working résumé and that job's description must be non-blank after trim. -/
def analyzeGuard (s : AppState) (id : Str) : Bool :=
  match findJob s.jobs id with
  | none => false
  | some job => decide (¬ jsTrim s.resume = [] ∧ ¬ jsTrim job.description = [])

/-- The synchronous prefix of `handleAnalyzeJob`, up to the await: when the
guard fails, return unchanged and issue no request (`false`); otherwise set
`isLoading`, clear `error` and issue the request (`true`). -/
def analyzeStartStep (s : AppState) (id : Str) : AppState × Bool :=
  if analyzeGuard s id then
    (updateJobApp s id { isLoading := some true, error := some none }, true)
  else (s, false)

/-- How one awaited `analyzeJobFit` call settled: the parsed analysis and
the current time on fulfilment, the thrown message on rejection. -/
inductive AnalyzeOutcome where
  | success (a : JobAnalysis) (t : Int)
  | failure (msg : Str)
deriving DecidableEq

/-- The continuation of `handleAnalyzeJob` after the awaited call settles:
on success store the analysis and the time and clear `isLoading`; on failure
store the message and clear `isLoading`. -/
def analyzeFinishStep (s : AppState) (id : Str) : AnalyzeOutcome → AppState
  | .success a t =>
    updateJobApp s id
      { analysis := some (some a), isLoading := some false, analyzedAt := some t }
  | .failure m => updateJobApp s id { error := some (some m), isLoading := some false }

/-- The guard of `handleFetchDescription`: a matching job with a non-empty
url. -/
def fetchGuard (s : AppState) (id : Str) : Bool :=
  match findJob s.jobs id with
  | none => false
  | some job => decide (¬ job.url = [])

/-- The synchronous prefix of `handleFetchDescription`, up to the await. -/
def fetchStartStep (s : AppState) (id : Str) : AppState × Bool :=
  if fetchGuard s id then
    (updateJobApp s id { isFetching := some true, error := some none }, true)
  else (s, false)

/-- How one awaited `fetchJobDescriptionFromUrl` call settled. -/
inductive FetchOutcome where
  | success (text : Str)
  | failure (msg : Str)
deriving DecidableEq

/-- The continuation of `handleFetchDescription` after the awaited call
settles. -/
def fetchFinishStep (s : AppState) (id : Str) : FetchOutcome → AppState
  | .success text =>
    updateJobApp s id { description := some text, isFetching := some false }
  | .failure m => updateJobApp s id { error := some (some m), isFetching := some false }

/-- One event of the App component; the async handlers are split into their
start (synchronous prefix up to the await) and finish (continuation) steps
so interleavings can be expressed. -/
inductive Event where
  | addJob (freshId : Str)
  | removeJob (id : Str)
  | updateJob (id : Str) (p : JobPatch)
  | setResume (r : Str)
  | applySuggestion (sug : ImprovementSuggestion)
  | analyzeStart (id : Str)
  | analyzeFinish (id : Str) (o : AnalyzeOutcome)
  | fetchStart (id : Str)
  | fetchFinish (id : Str) (o : FetchOutcome)
deriving DecidableEq

/-- The state transition of one event. -/
def step (s : AppState) : Event → AppState
  | .addJob freshId => handleAddJob s freshId
  | .removeJob id => handleRemoveJob s id
  | .updateJob id p => updateJobApp s id p
  | .setResume r => { s with resume := r }
  | .applySuggestion sug => applySuggestionApp s sug
  | .analyzeStart id => (analyzeStartStep s id).1
  | .analyzeFinish id o => analyzeFinishStep s id o
  | .fetchStart id => (fetchStartStep s id).1
  | .fetchFinish id o => fetchFinishStep s id o

/-- Run a sequence of events. -/
def run (s : AppState) (es : List Event) : AppState := es.foldl step s

/-- Whether an event can affect the job with the given id. -/
def touches : Event → Str → Bool
  | .addJob freshId, id => decide (freshId = id)
  | .removeJob j, id => decide (j = id)
  | .updateJob j _, id => decide (j = id)
  | .setResume _, _ => false
  | .applySuggestion _, _ => false
  | .analyzeStart j, id => decide (j = id)
  | .analyzeFinish j _, id => decide (j = id)
  | .fetchStart j, id => decide (j = id)
  | .fetchFinish j _, id => decide (j = id)

/-- The source never patches a job's id; generic update events are benign
when they respect this. -/
def benign : Event → Bool
  | .updateJob _ p => p.id.isNone
  | _ => true

/-- True when the job with the given id (if any) has `isLoading`
cleared. -/
def loadingClear (s : AppState) (id : Str) : Bool :=
  match findJob s.jobs id with
  | some j => ! j.isLoading
  | none => true

/-- Sort keys of the listings page. -/
inductive SortKey where
  | title
  | company
  | analyzedAt
deriving DecidableEq

/-- Sort directions of the listings page. -/
inductive SortDirection where
  | asc
  | desc
deriving DecidableEq

/-- The two comparator value shapes of `sortedJobs` in
src/pages/JobListingsPage.tsx: the epoch time for the analyzedAt key (0 when
never analyzed), a lower-cased string otherwise. -/
inductive SortVal where
  | num (n : Int)
  | strv (s : Str)
deriving DecidableEq

/-- Comparator key extraction of `sortedJobs`. -/
def sortValOf (k : SortKey) (j : Job) : SortVal :=
  match k with
  | .analyzedAt => .num (match j.analyzedAt with | some t => t | none => 0)
  | .title => .strv (jsToLower j.title)
  | .company => .strv (jsToLower j.company)

/-- JS `<` on comparator values (numbers numerically, strings
lexicographically; mixed shapes cannot arise under one sort key and compare
as false). -/
def svLt : SortVal → SortVal → Bool
  | .num a, .num b => decide (a < b)
  | .strv a, .strv b => decide (a < b)
  | _, _ => false

/-- The comparator function of `sortedJobs`. -/
def jobCompare (k : SortKey) (dir : SortDirection) (a b : Job) : Int :=
  if svLt (sortValOf k a) (sortValOf k b) then (if dir = .asc then -1 else 1)
  else if svLt (sortValOf k b) (sortValOf k a) then (if dir = .asc then 1 else -1)
  else 0

/-- Model of the `sortedJobs` memo: JS `Array.prototype.sort` is stable and
the comparator above is consistent, so the result is the unique stable
order, realised here by merge sort with the comparator-at-most-zero
relation. -/
def sortedJobs (k : SortKey) (dir : SortDirection) (jobs : List Job) : List Job :=
  jobs.mergeSort (fun a b => decide (jobCompare k dir a b ≤ 0))

/-- The suggestion-application protocol `apply(resumeText, suggestion)`: the
body of `handleApplySuggestion`,
`current.replace(suggestion.originalText, suggestion.suggestedRewrite)`. -/
def applySuggestion (resumeText : Str) (sug : ImprovementSuggestion) : Str :=
  jsReplace resumeText sug.originalText sug.suggestedRewrite

/- ### Lemmas about the string-replace embedding -/

/-- A replacement text without a dollar character is substituted
literally. -/
theorem getSubstitution_no_dollar (m b a : Str) :
    ∀ repl : Str, ¬ dollarChar ∈ repl → getSubstitution m b a repl = repl
  | [], _ => rfl
  | [_], _ => rfl
  | c1 :: c2 :: rest, h => by
    have h1 : ¬ c1 = dollarChar := fun e => h (e ▸ List.mem_cons_self c1 (c2 :: rest))
    have h2 : ¬ dollarChar ∈ (c2 :: rest) := fun hm => h (List.mem_cons_of_mem c1 hm)
    simp only [getSubstitution, if_neg h1]
    exact congrArg (c1 :: ·) (getSubstitution_no_dollar m b a (c2 :: rest) h2)

/-- `firstIndexOf` fails exactly when the pattern starts at no position. -/
theorem firstIndexOf_eq_none_iff (pat : Str) :
    ∀ s : Str, firstIndexOf pat s = none ↔ ∀ i, ¬ pat <+: s.drop i
  | [] => by
    by_cases h : pat.isPrefixOf [] = true
    · simp only [firstIndexOf, if_pos h]
      constructor
      · intro hc; exact Option.noConfusion hc
      · intro hall
        exact absurd (List.isPrefixOf_iff_prefix.mp h) (by simpa using hall 0)
    · simp only [firstIndexOf, if_neg h]
      constructor
      · intro _ i hp
        rw [List.drop_nil] at hp
        exact h (List.isPrefixOf_iff_prefix.mpr hp)
      · intro _; trivial
  | c :: t => by
    by_cases h : pat.isPrefixOf (c :: t) = true
    · simp only [firstIndexOf, if_pos h]
      constructor
      · intro hc; exact Option.noConfusion hc
      · intro hall
        exact absurd (List.isPrefixOf_iff_prefix.mp h) (by simpa using hall 0)
    · simp only [firstIndexOf, if_neg h]
      constructor
      · intro hnone i
        have ht : firstIndexOf pat t = none := by
          cases hfi : firstIndexOf pat t with
          | none => rfl
          | some j => rw [hfi] at hnone; exact Option.noConfusion hnone
        match i with
        | 0 =>
          intro hp
          exact h (List.isPrefixOf_iff_prefix.mpr (by simpa using hp))
        | i + 1 =>
          intro hp
          exact (firstIndexOf_eq_none_iff pat t).mp ht i (by simpa using hp)
      · intro hall
        rw [(firstIndexOf_eq_none_iff pat t).mpr
          (fun i hp => hall (i + 1) (by simpa using hp))]
        rfl

/-- When `firstIndexOf` finds an index, the pattern starts there, at no
earlier position, and within bounds. -/
theorem firstIndexOf_eq_some (pat : Str) :
    ∀ s : Str, ∀ i : Nat, firstIndexOf pat s = some i →
      pat <+: s.drop i ∧ (∀ k < i, ¬ pat <+: s.drop k) ∧ i ≤ s.length
  | [], i => by
    by_cases h : pat.isPrefixOf [] = true
    · simp only [firstIndexOf, if_pos h, Option.some.injEq]
      rintro rfl
      exact ⟨by simpa using List.isPrefixOf_iff_prefix.mp h,
        fun k hk => absurd hk (by omega), by simp⟩
    · simp only [firstIndexOf, if_neg h]
      intro hc; exact Option.noConfusion hc
  | c :: t, i => by
    by_cases h : pat.isPrefixOf (c :: t) = true
    · simp only [firstIndexOf, if_pos h, Option.some.injEq]
      rintro rfl
      exact ⟨by simpa using List.isPrefixOf_iff_prefix.mp h,
        fun k hk => absurd hk (by omega), by simp⟩
    · simp only [firstIndexOf, if_neg h]
      intro hmap
      cases hfi : firstIndexOf pat t with
      | none => rw [hfi] at hmap; exact Option.noConfusion hmap
      | some i' =>
        rw [hfi] at hmap
        obtain rfl : i = i' + 1 := by
          simpa using hmap.symm
        obtain ⟨hpre, hmin, hle⟩ := firstIndexOf_eq_some pat t i' hfi
        refine ⟨by simpa using hpre, ?_, by simp only [List.length_cons]; omega⟩
        intro k hk
        match k with
        | 0 => exact fun hp => h (List.isPrefixOf_iff_prefix.mpr (by simpa using hp))
        | k + 1 => exact fun hp => hmin k (by omega) (by simpa using hp)

/-- Occurring as an infix is the same as starting at some drop position. -/
theorem infix_iff_exists_drop (pat s : Str) :
    pat <:+: s ↔ ∃ i, pat <+: s.drop i := by
  constructor
  · rintro ⟨l, r, rfl⟩
    exact ⟨l.length, by
      rw [List.append_assoc, List.drop_left]
      exact List.prefix_append pat r⟩
  · rintro ⟨i, ⟨r, hr⟩⟩
    exact ⟨s.take i, r, by rw [List.append_assoc, hr, List.take_append_drop]⟩

/- ### C1: the suggestion-application protocol -/

/-- C1, counterexample: the claim is false as stated, because JS
`String.prototype.replace` expands `$`-patterns in the replacement string.
For resumeText `a` and a suggestion rewriting `a` to `$$`, the result is a
single dollar sign of length 1, not the claimed length 1 - 1 + 2 = 2. -/
theorem applySuggestion_dollar_counterexample :
    applySuggestion (str "a")
        { originalText := str "a", suggestedRewrite := str "$$", suggestionType := [] } =
      [dollarChar] ∧
    ¬ (applySuggestion (str "a")
          { originalText := str "a", suggestedRewrite := str "$$", suggestionType := [] }).length =
        (str "a").length - (str "a").length + (str "$$").length := by
  decide

/-- C1 (amended): `apply(resumeText, suggestion)` returns `resumeText`
unchanged when `originalText` does not occur in it; otherwise, provided the
rewrite text contains no dollar character (JS `replace` expands
`$`-patterns in the replacement string), exactly the first occurrence is
replaced by `suggestedRewrite` and the result length equals
length(resumeText) - length(originalText) + length(suggestedRewrite). -/
theorem applySuggestion_first_occurrence (resumeText : Str)
    (sug : ImprovementSuggestion) (hd : ¬ dollarChar ∈ sug.suggestedRewrite) :
    (¬ sug.originalText <:+: resumeText → applySuggestion resumeText sug = resumeText) ∧
    (sug.originalText <:+: resumeText →
      ∃ i, sug.originalText <+: resumeText.drop i ∧
        (∀ k < i, ¬ sug.originalText <+: resumeText.drop k) ∧
        applySuggestion resumeText sug =
          resumeText.take i ++ sug.suggestedRewrite ++
            resumeText.drop (i + sug.originalText.length) ∧
        (applySuggestion resumeText sug).length =
          resumeText.length - sug.originalText.length + sug.suggestedRewrite.length) := by
  constructor
  · intro hni
    have hnone : firstIndexOf sug.originalText resumeText = none :=
      (firstIndexOf_eq_none_iff _ _).mpr (fun i hp =>
        hni ((infix_iff_exists_drop _ _).mpr ⟨i, hp⟩))
    unfold applySuggestion jsReplace
    rw [hnone]
  · intro hinf
    obtain ⟨j, hj⟩ := (infix_iff_exists_drop _ _).mp hinf
    cases hfi : firstIndexOf sug.originalText resumeText with
    | none => exact absurd hj ((firstIndexOf_eq_none_iff _ _).mp hfi j)
    | some i =>
      obtain ⟨hpre, hmin, hle⟩ := firstIndexOf_eq_some _ _ _ hfi
      have heq : applySuggestion resumeText sug =
          resumeText.take i ++ sug.suggestedRewrite ++
            resumeText.drop (i + sug.originalText.length) := by
        unfold applySuggestion jsReplace
        rw [hfi]
        show resumeText.take i ++
            getSubstitution sug.originalText (resumeText.take i)
              (resumeText.drop (i + sug.originalText.length)) sug.suggestedRewrite ++
            resumeText.drop (i + sug.originalText.length) = _
        rw [getSubstitution_no_dollar _ _ _ _ hd]
      refine ⟨i, hpre, hmin, heq, ?_⟩
      have hlen2 : sug.originalText.length ≤ resumeText.length - i :=
        List.length_drop i resumeText ▸ hpre.length_le
      rw [heq]
      simp only [List.length_append, List.length_take, List.length_drop]
      omega

/-- C1 witness: the amended theorem applied at resumeText `xaby` and the
suggestion rewriting `ab` to `Z`: the occurrence at index 1 is replaced,
giving `xZy` of length 4 - 2 + 1 = 3. -/
theorem applySuggestion_first_occurrence_witness :
    ∃ i, (str "ab") <+: (str "xaby").drop i ∧
      (∀ k < i, ¬ (str "ab") <+: (str "xaby").drop k) ∧
      applySuggestion (str "xaby")
          { originalText := str "ab", suggestedRewrite := str "Z", suggestionType := [] } =
        (str "xaby").take i ++ (str "Z") ++ (str "xaby").drop (i + (str "ab").length) ∧
      (applySuggestion (str "xaby")
          { originalText := str "ab", suggestedRewrite := str "Z", suggestionType := [] }).length =
        (str "xaby").length - (str "ab").length + (str "Z").length :=
  (applySuggestion_first_occurrence (str "xaby")
    { originalText := str "ab", suggestedRewrite := str "Z", suggestionType := [] }
    (by decide)).2 (by decide)

/- ### Lemmas about job updates and the event system -/

/-- A patch that does not touch the id preserves it. -/
theorem applyPatch_id_of_none (j : Job) (p : JobPatch) (hp : p.id = none) :
    (applyPatch j p).id = j.id := by
  simp [applyPatch, hp]

/-- Updating an absent id changes nothing. -/
theorem handleUpdateJob_eq_of_absent (jobs : List Job) (id : Str) (p : JobPatch)
    (h : ∀ j ∈ jobs, ¬ j.id = id) : handleUpdateJob jobs id p = jobs := by
  unfold handleUpdateJob
  induction jobs with
  | nil => rfl
  | cons a t ih =>
    simp only [List.map_cons]
    rw [if_neg (h a (List.mem_cons_self a t)),
      ih (fun j hj => h j (List.mem_cons_of_mem a hj))]

/-- Positional view of `handleUpdateJob`. -/
theorem handleUpdateJob_getElem? (jobs : List Job) (id : Str) (p : JobPatch)
    (i : Nat) :
    (handleUpdateJob jobs id p)[i]? =
      (jobs[i]?).map (fun j => if j.id = id then applyPatch j p else j) :=
  List.getElem?_map _ jobs i

/-- `handleUpdateJob` preserves the collection length. -/
theorem handleUpdateJob_length (jobs : List Job) (id : Str) (p : JobPatch) :
    (handleUpdateJob jobs id p).length = jobs.length :=
  List.length_map jobs _

/-- `List.find?` on a cons whose head satisfies the predicate, with the
predicate explicit so instances of concrete lambdas rewrite cleanly. -/
theorem find?_cons_pos {α : Type} (p : α → Bool) (a : α) (l : List α)
    (h : p a = true) : List.find? p (a :: l) = some a := by
  rw [List.find?_cons, h]

/-- `List.find?` on a cons whose head fails the predicate. -/
theorem find?_cons_neg {α : Type} (p : α → Bool) (a : α) (l : List α)
    (h : p a = false) : List.find? p (a :: l) = List.find? p l := by
  rw [List.find?_cons, h]

/-- `List.filter` on a cons whose head satisfies the predicate. -/
theorem filter_cons_pos {α : Type} (p : α → Bool) (a : α) (l : List α)
    (h : p a = true) : List.filter p (a :: l) = a :: List.filter p l := by
  rw [List.filter_cons, h]
  rfl

/-- `List.filter` on a cons whose head fails the predicate. -/
theorem filter_cons_neg {α : Type} (p : α → Bool) (a : α) (l : List α)
    (h : p a = false) : List.filter p (a :: l) = List.filter p l := by
  rw [List.filter_cons, h]
  rfl

/-- `handleUpdateJob` patches exactly the job `find` sees, for id-preserving
patches. -/
theorem findJob_handleUpdateJob (jobs : List Job) (id : Str) (p : JobPatch)
    (hp : p.id = none) :
    findJob (handleUpdateJob jobs id p) id =
      (findJob jobs id).map (fun j => applyPatch j p) := by
  unfold findJob handleUpdateJob
  induction jobs with
  | nil => rfl
  | cons a t ih =>
    by_cases h : a.id = id
    · have hpa : decide (a.id = id) = true := decide_eq_true h
      have hpa2 : decide ((applyPatch a p).id = id) = true :=
        decide_eq_true (by rw [applyPatch_id_of_none a p hp, h])
      simp only [List.map_cons, if_pos h]
      rw [find?_cons_pos (fun j => decide (j.id = id)) (applyPatch a p) _ hpa2,
        find?_cons_pos (fun j => decide (j.id = id)) a _ hpa]
      rfl
    · have hpa : decide (a.id = id) = false := decide_eq_false h
      simp only [List.map_cons, if_neg h]
      rw [find?_cons_neg (fun j => decide (j.id = id)) a _ hpa,
        find?_cons_neg (fun j => decide (j.id = id)) a _ hpa]
      exact ih

/-- `handleUpdateJob` of a different id does not change what `find`
sees, for id-preserving patches. -/
theorem findJob_handleUpdateJob_ne (jobs : List Job) (rid id : Str)
    (p : JobPatch) (h : ¬ rid = id) (hp : p.id = none) :
    findJob (handleUpdateJob jobs rid p) id = findJob jobs id := by
  unfold findJob handleUpdateJob
  induction jobs with
  | nil => rfl
  | cons a t ih =>
    by_cases ha : a.id = rid
    · have h1 : decide (a.id = id) = false :=
        decide_eq_false (fun e => h (by rw [← ha, e]))
      have h2 : decide ((applyPatch a p).id = id) = false :=
        decide_eq_false (fun e => h (by
          rw [applyPatch_id_of_none a p hp] at e
          rw [← ha, e]))
      simp only [List.map_cons, if_pos ha]
      rw [find?_cons_neg (fun j => decide (j.id = id)) (applyPatch a p) _ h2,
        find?_cons_neg (fun j => decide (j.id = id)) a _ h1]
      exact ih
    · simp only [List.map_cons, if_neg ha]
      by_cases hid : a.id = id
      · have h1 : decide (a.id = id) = true := decide_eq_true hid
        rw [find?_cons_pos (fun j => decide (j.id = id)) a _ h1,
          find?_cons_pos (fun j => decide (j.id = id)) a _ h1]
      · have h1 : decide (a.id = id) = false := decide_eq_false hid
        rw [find?_cons_neg (fun j => decide (j.id = id)) a _ h1,
          find?_cons_neg (fun j => decide (j.id = id)) a _ h1]
        exact ih

/-- Prepending a job with a different id does not change what `find`
sees. -/
theorem findJob_cons_ne (jobs : List Job) (j : Job) (id : Str)
    (h : ¬ j.id = id) : findJob (j :: jobs) id = findJob jobs id := by
  unfold findJob
  exact find?_cons_neg (fun j2 => decide (j2.id = id)) j jobs (decide_eq_false h)

/-- Removing a different id does not change what `find` sees. -/
theorem findJob_filter_ne (jobs : List Job) (rid id : Str) (h : ¬ rid = id) :
    findJob (jobs.filter (fun j => decide (¬ j.id = rid))) id =
      findJob jobs id := by
  unfold findJob
  induction jobs with
  | nil => rfl
  | cons a t ih =>
    by_cases hk : a.id = rid
    · have hdrop : decide (¬ a.id = rid) = false :=
        decide_eq_false (fun hn => hn hk)
      have hfalse : decide (a.id = id) = false :=
        decide_eq_false (fun e => h (by rw [← hk, e]))
      rw [filter_cons_neg (fun j => decide (¬ j.id = rid)) a t hdrop,
        find?_cons_neg (fun j => decide (j.id = id)) a t hfalse]
      exact ih
    · have hkeep : decide (¬ a.id = rid) = true := decide_eq_true hk
      rw [filter_cons_pos (fun j => decide (¬ j.id = rid)) a t hkeep]
      by_cases hid : a.id = id
      · have h1 : decide (a.id = id) = true := decide_eq_true hid
        rw [find?_cons_pos (fun j => decide (j.id = id)) a _ h1,
          find?_cons_pos (fun j => decide (j.id = id)) a _ h1]
      · have h1 : decide (a.id = id) = false := decide_eq_false hid
        rw [find?_cons_neg (fun j => decide (j.id = id)) a _ h1,
          find?_cons_neg (fun j => decide (j.id = id)) a _ h1]
        exact ih

/-- A benign event that does not touch an id leaves that id's job (as seen
by `find`) unchanged. -/
theorem findJob_step_untouched (s : AppState) (e : Event) (id : Str)
    (ht : touches e id = false) (hb : benign e = true) :
    findJob (step s e).jobs id = findJob s.jobs id := by
  cases e with
  | addJob fid =>
    exact findJob_cons_ne s.jobs (newJob fid) id (by simpa [touches] using ht)
  | removeJob rid =>
    exact findJob_filter_ne s.jobs rid id (by simpa [touches] using ht)
  | updateJob rid p =>
    have hp : p.id = none := by simpa [benign, Option.isNone_iff_eq_none] using hb
    exact findJob_handleUpdateJob_ne s.jobs rid id p (by simpa [touches] using ht) hp
  | setResume r => rfl
  | applySuggestion sug => rfl
  | analyzeStart jid =>
    have hne : ¬ jid = id := by simpa [touches] using ht
    show findJob ((analyzeStartStep s jid).1).jobs id = _
    unfold analyzeStartStep
    by_cases hg : analyzeGuard s jid = true
    · rw [if_pos hg]
      exact findJob_handleUpdateJob_ne s.jobs jid id _ hne rfl
    · rw [if_neg hg]
  | analyzeFinish jid o =>
    have hne : ¬ jid = id := by simpa [touches] using ht
    cases o with
    | success a t => exact findJob_handleUpdateJob_ne s.jobs jid id _ hne rfl
    | failure m => exact findJob_handleUpdateJob_ne s.jobs jid id _ hne rfl
  | fetchStart jid =>
    have hne : ¬ jid = id := by simpa [touches] using ht
    show findJob ((fetchStartStep s jid).1).jobs id = _
    unfold fetchStartStep
    by_cases hg : fetchGuard s jid = true
    · rw [if_pos hg]
      exact findJob_handleUpdateJob_ne s.jobs jid id _ hne rfl
    · rw [if_neg hg]
  | fetchFinish jid o =>
    have hne : ¬ jid = id := by simpa [touches] using ht
    cases o with
    | success text => exact findJob_handleUpdateJob_ne s.jobs jid id _ hne rfl
    | failure m => exact findJob_handleUpdateJob_ne s.jobs jid id _ hne rfl

/-- A run of benign events that do not touch an id leaves that id's job (as
seen by `find`) unchanged. -/
theorem findJob_run_untouched (id : Str) :
    ∀ (es : List Event) (s : AppState),
      (∀ e ∈ es, touches e id = false ∧ benign e = true) →
      findJob (run s es).jobs id = findJob s.jobs id
  | [], _, _ => rfl
  | e :: es, s, h => by
    show findJob (run (step s e) es).jobs id = _
    rw [findJob_run_untouched id es (step s e)
        (fun e2 he2 => h e2 (List.mem_cons_of_mem e he2)),
      findJob_step_untouched s e id (h e (List.mem_cons_self e es)).1
        (h e (List.mem_cons_self e es)).2]

/- ### C8: updateJob merges into exactly the matching job -/

/-- C8: `updateJob(id, partialFields)` merges the given fields into exactly
the job whose id matches, leaving every field not listed in the patch and
every other job (and every position) unchanged; when no job with that id
exists — including a stale response for a removed job — the collection is
returned unchanged. -/
theorem updateJob_merges_exactly_matching (jobs : List Job) (id : Str)
    (p : JobPatch) :
    ((∀ j ∈ jobs, ¬ j.id = id) → handleUpdateJob jobs id p = jobs) ∧
    (handleUpdateJob jobs id p).length = jobs.length ∧
    (∀ i : Nat, ∀ j, jobs[i]? = some j → ¬ j.id = id →
      (handleUpdateJob jobs id p)[i]? = some j) ∧
    (∀ i : Nat, ∀ j, jobs[i]? = some j → j.id = id →
      (handleUpdateJob jobs id p)[i]? = some (applyPatch j p)) ∧
    (∀ j, p.id = none → (applyPatch j p).id = j.id) ∧
    (∀ j, p.url = none → (applyPatch j p).url = j.url) ∧
    (∀ j, p.title = none → (applyPatch j p).title = j.title) ∧
    (∀ j, p.company = none → (applyPatch j p).company = j.company) ∧
    (∀ j, p.description = none → (applyPatch j p).description = j.description) ∧
    (∀ j, p.isFetching = none → (applyPatch j p).isFetching = j.isFetching) ∧
    (∀ j, p.isLoading = none → (applyPatch j p).isLoading = j.isLoading) ∧
    (∀ j, p.error = none → (applyPatch j p).error = j.error) ∧
    (∀ j, p.analysis = none → (applyPatch j p).analysis = j.analysis) ∧
    (∀ j, p.analyzedAt = none → (applyPatch j p).analyzedAt = j.analyzedAt) := by
  refine ⟨handleUpdateJob_eq_of_absent jobs id p, List.length_map jobs _, ?_, ?_,
    fun j h => by simp [applyPatch, h], fun j h => by simp [applyPatch, h],
    fun j h => by simp [applyPatch, h], fun j h => by simp [applyPatch, h],
    fun j h => by simp [applyPatch, h], fun j h => by simp [applyPatch, h],
    fun j h => by simp [applyPatch, h], fun j h => by simp [applyPatch, h],
    fun j h => by simp [applyPatch, h], fun j h => by simp [applyPatch, h]⟩
  · intro i j hij hne
    rw [handleUpdateJob_getElem?, hij]
    show some (if j.id = id then applyPatch j p else j) = some j
    rw [if_neg hne]
  · intro i j hij heq
    rw [handleUpdateJob_getElem?, hij]
    show some (if j.id = id then applyPatch j p else j) = some (applyPatch j p)
    rw [if_pos heq]

/-- C8 witness: in a two-job collection, patching the url of the second job
leaves the first untouched and merges the patch into the second. -/
theorem updateJob_merges_exactly_matching_witness :
    (handleUpdateJob [newJob (str "a"), newJob (str "b")] (str "b")
        { url := some (str "u") })[0]? = some (newJob (str "a")) ∧
    (handleUpdateJob [newJob (str "a"), newJob (str "b")] (str "b")
        { url := some (str "u") })[1]? =
      some (applyPatch (newJob (str "b")) { url := some (str "u") }) :=
  ⟨(updateJob_merges_exactly_matching [newJob (str "a"), newJob (str "b")]
      (str "b") { url := some (str "u") }).2.2.1 0 (newJob (str "a"))
      (by decide) (by decide),
   (updateJob_merges_exactly_matching [newJob (str "a"), newJob (str "b")]
      (str "b") { url := some (str "u") }).2.2.2.1 1 (newJob (str "b"))
      (by decide) (by decide)⟩

/- ### C10: the guards of analyze and fetchDescription -/

/-- C10: `analyze(id)` returns immediately without issuing a request and
without changing any state when the id matches no job, or the working résumé
is empty or whitespace-only, or the matching job's description is empty or
whitespace-only; likewise `fetchDescription(id)` when the id is absent or
the job's url is empty. -/
theorem analyze_fetch_guards_noop (s : AppState) (id : Str) :
    ((findJob s.jobs id = none ∨ (∀ c ∈ s.resume, isJsWhitespace c = true) ∨
      (∃ j, findJob s.jobs id = some j ∧
        ∀ c ∈ j.description, isJsWhitespace c = true)) →
      analyzeStartStep s id = (s, false)) ∧
    ((findJob s.jobs id = none ∨
      (∃ j, findJob s.jobs id = some j ∧ j.url = [])) →
      fetchStartStep s id = (s, false)) := by
  have trim_nil : ∀ l : Str, (∀ c ∈ l, isJsWhitespace c = true) → jsTrim l = [] := by
    intro l hl
    have h1 : l.dropWhile isJsWhitespace = [] := List.dropWhile_eq_nil_iff.mpr hl
    simp [jsTrim, h1]
  constructor
  · intro h
    have hg : analyzeGuard s id = false := by
      unfold analyzeGuard
      rcases h with hnone | hres | ⟨j, hj, hdesc⟩
      · rw [hnone]
      · cases hfind : findJob s.jobs id with
        | none => rfl
        | some j =>
          simp only [decide_eq_false_iff_not, not_and, not_not]
          intro hcontra
          exact absurd (trim_nil s.resume hres) hcontra
      · rw [hj]
        simp only [decide_eq_false_iff_not, not_and, not_not]
        intro _
        exact trim_nil j.description hdesc
    unfold analyzeStartStep
    rw [hg]
    rfl
  · intro h
    have hg : fetchGuard s id = false := by
      unfold fetchGuard
      rcases h with hnone | ⟨j, hj, hurl⟩
      · rw [hnone]
      · rw [hj]
        simp [hurl]
    unfold fetchStartStep
    rw [hg]
    rfl

/-- C10 witness: with an empty job collection, both calls are no-ops that
issue no request. -/
theorem analyze_fetch_guards_noop_witness :
    analyzeStartStep { resume := str "r", jobs := [] } (str "x") =
      ({ resume := str "r", jobs := [] }, false) ∧
    fetchStartStep { resume := str "r", jobs := [] } (str "x") =
      ({ resume := str "r", jobs := [] }, false) :=
  ⟨(analyze_fetch_guards_noop { resume := str "r", jobs := [] } (str "x")).1
      (Or.inl rfl),
   (analyze_fetch_guards_noop { resume := str "r", jobs := [] } (str "x")).2
      (Or.inl rfl)⟩

/- ### C7: addJob -/

/-- C7, counterexample: the claim says `addJob()` creates a job with empty
fields, but the job literal in `handleAddJob` carries the non-empty
placeholder title `New Job Listing` (and company `Company Name`). -/
theorem addJob_nonempty_title_counterexample :
    ((handleAddJob { resume := [], jobs := [] } (str "n")).jobs.map Job.title) =
      [str "New Job Listing"] ∧
    ¬ str "New Job Listing" = [] := by
  decide

/-- C7 (amended): every `addJob()` call creates a job with empty url and
description, placeholder title `New Job Listing` and company `Company
Name`, cleared flags, null error and analysis and no analysis timestamp,
carrying the freshly generated id — unique provided the generator avoids
ids already in the collection — and inserts it at the head, leaving all
previously present jobs unchanged and in their prior relative order (and
the résumé text unchanged). -/
theorem addJob_prepends_fresh_job (s : AppState) (freshId : Str)
    (hfresh : ∀ j ∈ s.jobs, ¬ j.id = freshId) :
    (handleAddJob s freshId).jobs = newJob freshId :: s.jobs ∧
    (handleAddJob s freshId).resume = s.resume ∧
    (newJob freshId).id = freshId ∧
    (newJob freshId).url = [] ∧
    (newJob freshId).description = [] ∧
    (newJob freshId).title = str "New Job Listing" ∧
    (newJob freshId).company = str "Company Name" ∧
    (newJob freshId).isFetching = false ∧
    (newJob freshId).isLoading = false ∧
    (newJob freshId).error = none ∧
    (newJob freshId).analysis = none ∧
    (newJob freshId).analyzedAt = none ∧
    (∀ j ∈ s.jobs, ¬ j.id = (newJob freshId).id) :=
  ⟨rfl, rfl, rfl, rfl, rfl, rfl, rfl, rfl, rfl, rfl, rfl, rfl, hfresh⟩

/-- C7 witness: adding a fresh id to a one-job collection. -/
theorem addJob_prepends_fresh_job_witness :
    (handleAddJob { resume := [], jobs := [newJob (str "a")] } (str "b")).jobs =
      newJob (str "b") :: [newJob (str "a")] ∧
    (∀ j ∈ ({ resume := [], jobs := [newJob (str "a")] } : AppState).jobs,
      ¬ j.id = (newJob (str "b")).id) :=
  ⟨(addJob_prepends_fresh_job { resume := [], jobs := [newJob (str "a")] }
      (str "b") (by decide)).1,
   (addJob_prepends_fresh_job { resume := [], jobs := [newJob (str "a")] }
      (str "b") (by decide)).2.2.2.2.2.2.2.2.2.2.2.2⟩

/- ### C5: the isLoading window of one analyze call -/

/-- C5: for one `analyze(id)` call that passes its guard — with every other
event of the run neither touching that job id nor patching ids (the source
never patches ids) — the job's `isLoading` flag is false before the call
starts, true at every point strictly between the start and the settling of
the awaited call, and false at every point from the settling on; after a
successful call the job carries the returned analysis, the completion time
and no error, and after a failed call it carries the error message. -/
theorem analyze_isLoading_window (s0 : AppState) (id : Str)
    (mid post : List Event) (o : AnalyzeOutcome)
    (hmid : ∀ e ∈ mid, touches e id = false ∧ benign e = true)
    (hpost : ∀ e ∈ post, touches e id = false ∧ benign e = true)
    (h0 : loadingClear s0 id = true)
    (hg : analyzeGuard s0 id = true) :
    (∃ j0, findJob s0.jobs id = some j0 ∧ j0.isLoading = false) ∧
    (∀ p2, p2 <+: mid →
      ∃ j, findJob (run (step s0 (.analyzeStart id)) p2).jobs id = some j ∧
        j.isLoading = true ∧ j.error = none) ∧
    (∀ q, q <+: post →
      ∃ j, findJob (run (step (run (step s0 (.analyzeStart id)) mid)
            (.analyzeFinish id o)) q).jobs id = some j ∧
        j.isLoading = false ∧
        (∀ a t, o = .success a t →
          j.analysis = some a ∧ j.analyzedAt = some t ∧ j.error = none) ∧
        (∀ m, o = .failure m → j.error = some m)) := by
  cases hfind : findJob s0.jobs id with
  | none =>
    unfold analyzeGuard at hg
    rw [hfind] at hg
    exact Bool.noConfusion hg
  | some j0 =>
    have hload : j0.isLoading = false := by
      unfold loadingClear at h0
      rw [hfind] at h0
      simpa using h0
    have hs1 : step s0 (.analyzeStart id) =
        updateJobApp s0 id { isLoading := some true, error := some none } := by
      show (analyzeStartStep s0 id).1 = _
      unfold analyzeStartStep
      rw [if_pos hg]
    have hfind1 : findJob (step s0 (.analyzeStart id)).jobs id =
        some (applyPatch j0 { isLoading := some true, error := some none }) := by
      rw [hs1]
      show findJob (handleUpdateJob s0.jobs id
        { isLoading := some true, error := some none }) id = _
      rw [findJob_handleUpdateJob _ _ _ rfl, hfind]
      rfl
    have hfind2 : findJob (run (step s0 (.analyzeStart id)) mid).jobs id =
        some (applyPatch j0 { isLoading := some true, error := some none }) := by
      rw [findJob_run_untouched id mid _ hmid]
      exact hfind1
    refine ⟨⟨j0, rfl, hload⟩, ?_, ?_⟩
    · intro p2 hp2
      refine ⟨applyPatch j0 { isLoading := some true, error := some none }, ?_, rfl, rfl⟩
      rw [findJob_run_untouched id p2 _ (fun e he => hmid e (hp2.subset he))]
      exact hfind1
    · intro q hq
      have hframe : ∀ s : AppState, findJob (run s q).jobs id = findJob s.jobs id :=
        fun s => findJob_run_untouched id q s (fun e he => hpost e (hq.subset he))
      cases o with
      | success a t =>
        refine ⟨applyPatch (applyPatch j0 { isLoading := some true, error := some none })
          { analysis := some (some a), isLoading := some false, analyzedAt := some t },
          ?_, rfl, ?_, ?_⟩
        · rw [hframe]
          show findJob (handleUpdateJob (run (step s0 (.analyzeStart id)) mid).jobs id
            { analysis := some (some a), isLoading := some false,
              analyzedAt := some t }) id = _
          rw [findJob_handleUpdateJob _ _ _ rfl, hfind2]
          rfl
        · intro a2 t2 heq
          cases heq
          exact ⟨rfl, rfl, rfl⟩
        · intro m heq
          exact AnalyzeOutcome.noConfusion heq
      | failure m =>
        refine ⟨applyPatch (applyPatch j0 { isLoading := some true, error := some none })
          { error := some (some m), isLoading := some false },
          ?_, rfl, ?_, ?_⟩
        · rw [hframe]
          show findJob (handleUpdateJob (run (step s0 (.analyzeStart id)) mid).jobs id
            { error := some (some m), isLoading := some false }) id = _
          rw [findJob_handleUpdateJob _ _ _ rfl, hfind2]
          rfl
        · intro a2 t2 heq
          exact AnalyzeOutcome.noConfusion heq
        · intro m2 heq
          cases heq
          exact rfl

/-- C5 witness: a one-job collection with résumé `r` and description `d`;
one interleaved `addJob` event happens while the call is in flight, and the
job shows `isLoading` true at that point. -/
theorem analyze_isLoading_window_witness :
    ∃ j, findJob (run (step
        { resume := str "r", jobs := [{ newJob (str "j") with description := str "d" }] }
        (.analyzeStart (str "j"))) [.addJob (str "w")]).jobs (str "j") = some j ∧
      j.isLoading = true ∧ j.error = none :=
  (analyze_isLoading_window
    { resume := str "r", jobs := [{ newJob (str "j") with description := str "d" }] }
    (str "j") [.addJob (str "w")] []
    (.success
      { matchScore := 70, summary := str "s", strengths := [], gaps := [],
        matchedKeywords := [], missingKeywords := [], improvementSuggestions := [],
        coverLetterDraft := str "c" }
      7)
    (by decide) (by decide) (by decide) (by decide)).2.1
    [.addJob (str "w")] List.prefix_rfl

/- ### C6: fetchDescription failure leaves the description unchanged -/

/-- C6: for a job with a non-empty url, when the awaited description fetch
fails — with the message the Description Fetcher raises for a non-ok
response — the job ends with `isFetching` false, a non-empty error message
and an unchanged description; its other fields, every other job
(positionally) and the résumé text are unchanged. -/
theorem fetchDescription_failure_frame (s0 : AppState) (id : Str)
    (j0 : Job) (resp : FetchResponse) (msg : Str)
    (hfind : findJob s0.jobs id = some j0) (hurl : ¬ j0.url = [])
    (hresp : resp.ok = false)
    (hmsg : fetchJobDescriptionFromUrl resp = .error msg) :
    ∃ j, findJob (step (step s0 (.fetchStart id))
        (.fetchFinish id (.failure msg))).jobs id = some j ∧
      j.isFetching = false ∧ j.error = some msg ∧ ¬ msg = [] ∧
      j.description = j0.description ∧ j.id = j0.id ∧ j.url = j0.url ∧
      j.title = j0.title ∧ j.company = j0.company ∧
      j.isLoading = j0.isLoading ∧ j.analysis = j0.analysis ∧
      j.analyzedAt = j0.analyzedAt ∧
      (step (step s0 (.fetchStart id))
        (.fetchFinish id (.failure msg))).jobs.length = s0.jobs.length ∧
      (∀ i : Nat, ∀ jx, s0.jobs[i]? = some jx → ¬ jx.id = id →
        (step (step s0 (.fetchStart id))
          (.fetchFinish id (.failure msg))).jobs[i]? = some jx) ∧
      (step (step s0 (.fetchStart id))
        (.fetchFinish id (.failure msg))).resume = s0.resume := by
  have hmsgne : ¬ msg = [] := by
    unfold fetchJobDescriptionFromUrl at hmsg
    rw [hresp] at hmsg
    simp only [Bool.false_eq_true, if_false, Except.error.injEq] at hmsg
    intro hc
    rw [hc] at hmsg
    rcases List.append_eq_nil.mp hmsg with ⟨h1, _⟩
    exact absurd h1 (by decide)
  have hguard : fetchGuard s0 id = true := by
    unfold fetchGuard
    rw [hfind]
    exact decide_eq_true hurl
  have hs1 : step s0 (.fetchStart id) =
      updateJobApp s0 id { isFetching := some true, error := some none } := by
    show (fetchStartStep s0 id).1 = _
    unfold fetchStartStep
    rw [if_pos hguard]
  have hfind1 : findJob (step s0 (.fetchStart id)).jobs id =
      some (applyPatch j0 { isFetching := some true, error := some none }) := by
    rw [hs1]
    show findJob (handleUpdateJob s0.jobs id
      { isFetching := some true, error := some none }) id = _
    rw [findJob_handleUpdateJob _ _ _ rfl, hfind]
    rfl
  refine ⟨applyPatch (applyPatch j0 { isFetching := some true, error := some none })
    { error := some (some msg), isFetching := some false },
    ?_, rfl, rfl, hmsgne, rfl, rfl, rfl, rfl, rfl, rfl, rfl, rfl, ?_, ?_, ?_⟩
  · show findJob (handleUpdateJob (step s0 (.fetchStart id)).jobs id
      { error := some (some msg), isFetching := some false }) id = _
    rw [findJob_handleUpdateJob _ _ _ rfl, hfind1]
    rfl
  · show (handleUpdateJob (step s0 (.fetchStart id)).jobs id
      { error := some (some msg), isFetching := some false }).length = _
    rw [handleUpdateJob_length, hs1]
    exact handleUpdateJob_length s0.jobs id _
  · intro i jx hi hne
    have h1 : (step s0 (.fetchStart id)).jobs[i]? = some jx := by
      rw [hs1]
      show (handleUpdateJob s0.jobs id
        { isFetching := some true, error := some none })[i]? = some jx
      rw [handleUpdateJob_getElem?, hi]
      show some (if jx.id = id then _ else jx) = some jx
      rw [if_neg hne]
    show (handleUpdateJob (step s0 (.fetchStart id)).jobs id
      { error := some (some msg), isFetching := some false })[i]? = some jx
    rw [handleUpdateJob_getElem?, h1]
    show some (if jx.id = id then _ else jx) = some jx
    rw [if_neg hne]
  · rw [hs1]
    rfl

/-- C6 witness: a two-job collection; the fetch for job `j` fails with a
non-ok 500 response whose body is empty, so the message falls back to the
status text. -/
theorem fetchDescription_failure_frame_witness :
    ∃ j, findJob (step (step
        { resume := str "r",
          jobs := [{ newJob (str "j") with url := str "u" }, newJob (str "k")] }
        (.fetchStart (str "j")))
        (.fetchFinish (str "j")
          (.failure (str "Failed to fetch job description: Internal Server Error")))).jobs
        (str "j") = some j ∧
      j.isFetching = false ∧
      j.error = some (str "Failed to fetch job description: Internal Server Error") ∧
      ¬ (str "Failed to fetch job description: Internal Server Error") = [] ∧
      j.description = ({ newJob (str "j") with url := str "u" } : Job).description ∧
      j.id = ({ newJob (str "j") with url := str "u" } : Job).id ∧
      j.url = ({ newJob (str "j") with url := str "u" } : Job).url ∧
      j.title = ({ newJob (str "j") with url := str "u" } : Job).title ∧
      j.company = ({ newJob (str "j") with url := str "u" } : Job).company ∧
      j.isLoading = ({ newJob (str "j") with url := str "u" } : Job).isLoading ∧
      j.analysis = ({ newJob (str "j") with url := str "u" } : Job).analysis ∧
      j.analyzedAt = ({ newJob (str "j") with url := str "u" } : Job).analyzedAt ∧
      (step (step
        { resume := str "r",
          jobs := [{ newJob (str "j") with url := str "u" }, newJob (str "k")] }
        (.fetchStart (str "j")))
        (.fetchFinish (str "j")
          (.failure (str "Failed to fetch job description: Internal Server Error")))).jobs.length =
        ({ resume := str "r",
           jobs := [{ newJob (str "j") with url := str "u" }, newJob (str "k")] } :
          AppState).jobs.length ∧
      (∀ i : Nat, ∀ jx,
        ({ resume := str "r",
           jobs := [{ newJob (str "j") with url := str "u" }, newJob (str "k")] } :
          AppState).jobs[i]? = some jx →
        ¬ jx.id = (str "j") →
        (step (step
          { resume := str "r",
            jobs := [{ newJob (str "j") with url := str "u" }, newJob (str "k")] }
          (.fetchStart (str "j")))
          (.fetchFinish (str "j")
            (.failure (str "Failed to fetch job description: Internal Server Error")))).jobs[i]? =
          some jx) ∧
      (step (step
        { resume := str "r",
          jobs := [{ newJob (str "j") with url := str "u" }, newJob (str "k")] }
        (.fetchStart (str "j")))
        (.fetchFinish (str "j")
          (.failure (str "Failed to fetch job description: Internal Server Error")))).resume =
        ({ resume := str "r",
           jobs := [{ newJob (str "j") with url := str "u" }, newJob (str "k")] } :
          AppState).resume :=
  fetchDescription_failure_frame
    { resume := str "r",
      jobs := [{ newJob (str "j") with url := str "u" }, newJob (str "k")] }
    (str "j")
    { newJob (str "j") with url := str "u" }
    { ok := false, statusText := str "Internal Server Error", body := [] }
    (str "Failed to fetch job description: Internal Server Error")
    (by decide) (by decide) (by decide) (by rfl)

/- ### C2: deleteResume of a nonexistent id -/

/-- C2, the code evaluated at the failing input: `deleteResume` never
consults the response status on the remote path, so when the fetch promise
resolves non-ok — as with the server's own 404 `Not found` for a
nonexistent id — the client reports success and fires no NotFound
condition.  The claim states the intended behaviour: the server's DELETE
handler answers 404 for a missing id, every sibling client call checks
`resp.ok` through `tryFetchJson`, and `deleteResume`'s own fallback throws
`Resume with ID <id> not found`; the raw un-checked `fetch` here is the one
deviation. -/
theorem deleteResume_resolved_404_reports_success :
    deleteResume (.resolved false) ⟨some []⟩ (str "missing") (str "s") 0 =
      (⟨some []⟩, .ok true) := rfl

/-- The fallback path carries the NotFound intent the resolved path drops:
when the remote delete call rejects (transport failure), deleting an id
matching no cached record throws the not-found message and leaves the cache
exactly as the preceding read left it (no record added, removed or
changed); a resolved remote call — any status — reports success and leaves
the cache untouched. -/
theorem deleteResume_absent_notfound (store : LocalStore) (id freshId : Str)
    (now : Int)
    (habs : ∀ r ∈ (readLocalResumes store freshId now).1, ¬ r._id = id) :
    deleteResume .rejected store id freshId now =
      ((readLocalResumes store freshId now).2,
        .error (str "Resume with ID " ++ id ++ str " not found")) ∧
    (∀ ok, deleteResume (.resolved ok) store id freshId now =
      (store, .ok true)) := by
  have hfilter : (readLocalResumes store freshId now).1.filter
      (fun r => decide (¬ r._id = id)) = (readLocalResumes store freshId now).1 :=
    List.filter_eq_self.mpr (fun r hr => decide_eq_true (habs r hr))
  constructor
  · simp only [deleteResume]
    rw [hfilter, if_pos rfl]
  · intro ok
    rfl

/-- Concrete instance of the fallback-path behaviour: a one-record cache
and a rejected remote call; deleting an absent id throws and preserves the
record. -/
theorem deleteResume_absent_notfound_witness :
    deleteResume .rejected ⟨some [⟨str "a", str "n", str "c", str "d", 5⟩]⟩
        (str "b") (str "f") 0 =
      ((readLocalResumes ⟨some [⟨str "a", str "n", str "c", str "d", 5⟩]⟩
          (str "f") 0).2,
        .error (str "Resume with ID " ++ str "b" ++ str " not found")) ∧
    (∀ ok, deleteResume (.resolved ok)
        ⟨some [⟨str "a", str "n", str "c", str "d", 5⟩]⟩ (str "b") (str "f") 0 =
      (⟨some [⟨str "a", str "n", str "c", str "d", 5⟩]⟩, .ok true)) :=
  deleteResume_absent_notfound ⟨some [⟨str "a", str "n", str "c", str "d", 5⟩]⟩
    (str "b") (str "f") 0 (by decide)

/- ### C3: the Analysis Client's error behaviour -/

/-- C3, counterexample: with a success status and an empty body the client
raises nothing: `handleResponse` turns the empty body into the empty JSON
object, which is returned (cast unvalidated to JobAnalysis) — contradicting
the claim that an empty body raises an Upstream error and that a
JobAnalysis is returned only when the body parses to one. -/
theorem analyzeJobFit_empty_body_counterexample :
    analyzeJobFit { ok := true, statusText := str "OK", body := [] } =
      .ok (Json.obj []) := rfl

/-- C3 (amended): the Analysis Client raises exactly on a non-success
status, and the raised message extends the fixed user-facing prefix (hence
is non-empty and displayable); on a success status no error is ever raised:
an empty body yields the empty JSON object, an unparseable body yields the
raw body text, and a parseable body yields its parsed JSON value, each
returned without validation as the JobAnalysis. -/
theorem analyzeJobFit_error_behaviour (resp : FetchResponse) :
    (resp.ok = false →
      analyzeJobFit resp =
        .error (str "Failed to analyze job fit: " ++
          (if resp.body = [] then resp.statusText else resp.body)) ∧
      ¬ (str "Failed to analyze job fit: " ++
          (if resp.body = [] then resp.statusText else resp.body)) = []) ∧
    (resp.ok = true → resp.body = [] →
      analyzeJobFit resp = .ok (Json.obj [])) ∧
    (resp.ok = true → ¬ resp.body = [] → jsonParse resp.body = none →
      analyzeJobFit resp = .ok (Json.strv resp.body)) ∧
    (resp.ok = true → ¬ resp.body = [] → ∀ v, jsonParse resp.body = some v →
      analyzeJobFit resp = .ok v) := by
  refine ⟨?_, ?_, ?_, ?_⟩
  · intro hok
    constructor
    · unfold analyzeJobFit
      rw [hok, if_neg Bool.false_ne_true]
    · intro hc
      rcases List.append_eq_nil.mp hc with ⟨h1, _⟩
      exact absurd h1 (by decide)
  · intro hok hb
    unfold analyzeJobFit handleResponse
    rw [hok, if_pos rfl, hb, if_pos rfl]
  · intro hok hnb hnone
    unfold analyzeJobFit handleResponse
    rw [hok, if_pos rfl, if_neg hnb, hnone]
  · intro hok hnb v hv
    unfold analyzeJobFit handleResponse
    rw [hok, if_pos rfl, if_neg hnb, hv]

/-- C3 witness: a 502-style response with empty body raises the prefixed
message built from the status text. -/
theorem analyzeJobFit_error_behaviour_witness :
    analyzeJobFit { ok := false, statusText := str "Bad Gateway", body := [] } =
      .error (str "Failed to analyze job fit: " ++
        (if ([] : Str) = [] then str "Bad Gateway" else [])) ∧
    ¬ (str "Failed to analyze job fit: " ++
        (if ([] : Str) = [] then str "Bad Gateway" else [])) = [] :=
  (analyzeJobFit_error_behaviour
    { ok := false, statusText := str "Bad Gateway", body := [] }).1 rfl

/- ### C4: sorting by analyzedAt descending -/

/-- C4, counterexample: a job analyzed before the Unix epoch (negative time
value, e.g. an ISO timestamp from 1969) sorts below a never-analyzed job,
because the comparator maps a missing `analyzedAt` to 0: the sorted list
puts the unanalyzed job first, so a job without `analyzedAt` is not placed
after every job that has one. -/
theorem sortedJobs_pre_epoch_counterexample :
    sortedJobs .analyzedAt .desc
        [{ newJob (str "A") with analyzedAt := some (-1) }, newJob (str "B")] =
      [newJob (str "B"), { newJob (str "A") with analyzedAt := some (-1) }] ∧
    ¬ (sortedJobs .analyzedAt .desc
        [{ newJob (str "A") with analyzedAt := some (-1) }, newJob (str "B")]).Pairwise
      (fun a b => a.analyzedAt = none → b.analyzedAt = none) := by
  have heq : sortedJobs .analyzedAt .desc
      [{ newJob (str "A") with analyzedAt := some (-1) }, newJob (str "B")] =
      [newJob (str "B"), { newJob (str "A") with analyzedAt := some (-1) }] := by
    simp +decide [sortedJobs, List.mergeSort, List.merge, jobCompare, sortValOf,
      svLt, newJob]
  refine ⟨heq, ?_⟩
  rw [heq]
  decide

/-- True when a job's analysis timestamp, if any, is strictly after the
Unix epoch; timestamps written by `handleAnalyzeJob`
(`new Date().toISOString()` at analysis time) always are. -/
def analyzedAfterEpoch (j : Job) : Bool :=
  match j.analyzedAt with
  | some t => decide (0 < t)
  | none => true

/-- The descending analyzedAt comparator keeps `a` before `b` exactly when
`b`'s key (0 when unanalyzed) is at most `a`'s. -/
theorem analyzedDescLe_iff (a b : Job) :
    decide (jobCompare .analyzedAt .desc a b ≤ 0) = true ↔
      (match b.analyzedAt with | some t => t | none => 0) ≤
        (match a.analyzedAt with | some t => t | none => 0) := by
  unfold jobCompare sortValOf svLt
  rw [decide_eq_true_iff]
  by_cases h1 : (match a.analyzedAt with | some t => t | none => 0) <
      (match b.analyzedAt with | some t => t | none => 0)
  · rw [if_pos (decide_eq_true h1)]
    simp only [reduceCtorEq, if_false]
    omega
  · rw [if_neg (by simpa using h1)]
    by_cases h2 : (match b.analyzedAt with | some t => t | none => 0) <
        (match a.analyzedAt with | some t => t | none => 0)
    · rw [if_pos (decide_eq_true h2)]
      simp only [reduceCtorEq, if_false]
      omega
    · rw [if_neg (by simpa using h2)]
      omega

/-- C4 (amended): for every collection in which every analyzed job's time
value lies strictly after the Unix epoch — always the case for the
timestamps `handleAnalyzeJob` writes — sorting by `analyzedAt` descending
places every job without `analyzedAt` after every job that has one,
regardless of insertion order; jobs analyzed at or before the epoch can tie
with or precede unanalyzed jobs. -/
theorem sortedJobs_none_last (jobs : List Job)
    (hpos : ∀ j ∈ jobs, analyzedAfterEpoch j = true) :
    (sortedJobs .analyzedAt .desc jobs).Pairwise
      (fun a b => a.analyzedAt = none → b.analyzedAt = none) := by
  have htrans : ∀ a b c : Job,
      decide (jobCompare .analyzedAt .desc a b ≤ 0) = true →
      decide (jobCompare .analyzedAt .desc b c ≤ 0) = true →
      decide (jobCompare .analyzedAt .desc a c ≤ 0) = true := by
    intro a b c h1 h2
    rw [analyzedDescLe_iff] at h1 h2 ⊢
    omega
  have htotal : ∀ a b : Job,
      (decide (jobCompare .analyzedAt .desc a b ≤ 0) ||
        decide (jobCompare .analyzedAt .desc b a ≤ 0)) = true := by
    intro a b
    rw [Bool.or_eq_true, analyzedDescLe_iff, analyzedDescLe_iff]
    omega
  have hs := List.sorted_mergeSort htrans htotal jobs
  refine hs.imp_of_mem ?_
  intro a b ha hb hle hnone
  cases hbt : b.analyzedAt with
  | none => rfl
  | some t =>
    exfalso
    have hbmem : b ∈ jobs := List.mem_mergeSort.mp hb
    have hbpos : 0 < t := by
      have h := hpos b hbmem
      unfold analyzedAfterEpoch at h
      rw [hbt] at h
      exact of_decide_eq_true h
    rw [analyzedDescLe_iff, hnone, hbt] at hle
    have hle2 : t ≤ (0 : Int) := hle
    omega

/-- C4 witness: a two-job collection, unanalyzed job inserted first; after
sorting descending the unanalyzed job comes last. -/
theorem sortedJobs_none_last_witness :
    (sortedJobs .analyzedAt .desc
      [newJob (str "B"), { newJob (str "A") with analyzedAt := some 5 }]).Pairwise
      (fun a b => a.analyzedAt = none → b.analyzedAt = none) :=
  sortedJobs_none_last
    [newJob (str "B"), { newJob (str "A") with analyzedAt := some 5 }]
    (by decide)

/- ### C9: getResumes remote-failure fallback -/

/-- C9: when the remote read fails, `list()` returns the local cache's
records sorted newest-first by `savedAt` (a permutation of the cache,
pairwise non-increasing in `savedAt`) and leaves the slot as read; on the
first read of an unset (never-written) slot it auto-seeds exactly one
default template record — named `General Resume Template`, carrying the
shipped template content, the fresh uuid and the current time — which the
call then returns. -/
theorem getResumes_fallback (store : LocalStore) (freshId : Str) (now : Int) :
    (∀ l, store.slot = some l →
      (getResumes none store freshId now).1.Perm l ∧
      (getResumes none store freshId now).1.Pairwise
        (fun a b => b.savedAt ≤ a.savedAt) ∧
      (getResumes none store freshId now).2 = store) ∧
    (store.slot = none →
      (getResumes none store freshId now).1 = [seedRecord freshId now] ∧
      (getResumes none store freshId now).2 = ⟨some [seedRecord freshId now]⟩ ∧
      (seedRecord freshId now).name = str "General Resume Template" ∧
      (seedRecord freshId now).content = templateResumeContent ∧
      (seedRecord freshId now)._id = freshId ∧
      (seedRecord freshId now).savedAt = now) := by
  have htrans : ∀ a b c : SavedResume, resumeDescLe a b = true →
      resumeDescLe b c = true → resumeDescLe a c = true := by
    intro a b c h1 h2
    unfold resumeDescLe at h1 h2 ⊢
    rw [decide_eq_true_iff] at h1 h2 ⊢
    omega
  have htotal : ∀ a b : SavedResume,
      (resumeDescLe a b || resumeDescLe b a) = true := by
    intro a b
    unfold resumeDescLe
    rw [Bool.or_eq_true, decide_eq_true_iff, decide_eq_true_iff]
    omega
  constructor
  · intro l hl
    have hread : readLocalResumes store freshId now = (l, store) := by
      unfold readLocalResumes
      rw [hl]
    refine ⟨?_, ?_, ?_⟩
    · show ((readLocalResumes store freshId now).1.mergeSort resumeDescLe).Perm l
      rw [hread]
      exact List.mergeSort_perm l resumeDescLe
    · show ((readLocalResumes store freshId now).1.mergeSort
        resumeDescLe).Pairwise (fun a b => b.savedAt ≤ a.savedAt)
      rw [hread]
      refine (List.sorted_mergeSort htrans htotal l).imp ?_
      intro a b h
      unfold resumeDescLe at h
      rw [decide_eq_true_iff] at h
      omega
    · show (readLocalResumes store freshId now).2 = store
      rw [hread]
  · intro hn
    have hread : readLocalResumes store freshId now =
        ([seedRecord freshId now], ⟨some [seedRecord freshId now]⟩) := by
      unfold readLocalResumes
      rw [hn]
    refine ⟨?_, ?_, rfl, rfl, rfl, rfl⟩
    · show (readLocalResumes store freshId now).1.mergeSort resumeDescLe =
        [seedRecord freshId now]
      rw [hread]
      exact List.mergeSort_singleton (seedRecord freshId now)
    · show (readLocalResumes store freshId now).2 = ⟨some [seedRecord freshId now]⟩
      rw [hread]

/-- C9 witness: the first fallback read of an unset slot returns exactly the
seeded template record. -/
theorem getResumes_fallback_witness :
    (getResumes none ⟨none⟩ (str "f") 9).1 = [seedRecord (str "f") 9] ∧
    (getResumes none ⟨none⟩ (str "f") 9).2 = ⟨some [seedRecord (str "f") 9]⟩ ∧
    (seedRecord (str "f") 9).name = str "General Resume Template" ∧
    (seedRecord (str "f") 9).content = templateResumeContent ∧
    (seedRecord (str "f") 9)._id = str "f" ∧
    (seedRecord (str "f") 9).savedAt = 9 :=
  (getResumes_fallback ⟨none⟩ (str "f") 9).2 rfl

end JobCopilot
